import Mathlib

/-!
Verification of the repo_lens command-planning and execution pipeline.

The Python sources are shallowly embedded: pure string manipulation is
translated to Lean functions on `String`/`List Char`; external effects
(the `subprocess` call, the LLM transport, `json.loads`) are passed in as
explicit oracle parameters, and every invocation of the process runner is
returned as an explicit trace so that "which commands were executed" is a
provable statement.
-/

deriving instance DecidableEq for Except

namespace RepoLens

/-- Whitespace test modelling Python `str.isspace` on the ASCII range
(space, tab, newline, carriage return, vertical tab, form feed); all
strings manipulated by the pipeline are ASCII. -/
def pyIsSpace (c : Char) : Bool :=
  c = ' ' || c = '\t' || c = '\n' || c = '\r' || c = '\x0b' || c = '\x0c'

/-- Python `str.strip()` on a character list. -/
def pyStripChars (l : List Char) : List Char :=
  ((l.dropWhile pyIsSpace).reverse.dropWhile pyIsSpace).reverse

/-- Python `str.strip()`. -/
def pyStrip (s : String) : String := ⟨pyStripChars s.data⟩

/-- Python `str.rstrip()`. -/
def pyRStrip (s : String) : String := ⟨(s.data.reverse.dropWhile pyIsSpace).reverse⟩

/-- Lexer mode of Python `shlex` in POSIX mode: outside quotes, after a
backslash outside quotes, inside single quotes, inside double quotes, and
after a backslash inside double quotes. -/
inductive ShMode where
  | normal
  | escaped
  | singleQ
  | doubleQ
  | doubleQEsc
deriving DecidableEq, Repr

/-- Core loop of Python `shlex.split` (POSIX mode, `whitespace_split=True`,
`comments=False`): `cur` is the token under construction (`some ""` after a
quote pair so that empty quoted tokens are emitted), `acc` the reversed list
of finished tokens.  An error carries the `ValueError` message raised by
`shlex` (unbalanced quote or trailing escape). -/
def shlexRun : List Char → ShMode → Option String → List String →
    Except String (List String)
  | [], .normal, cur, acc =>
    .ok (match cur with
         | none => acc.reverse
         | some t => (t :: acc).reverse)
  | [], .escaped, _, _ => .error "No escaped character"
  | [], .doubleQEsc, _, _ => .error "No escaped character"
  | [], .singleQ, _, _ => .error "No closing quotation"
  | [], .doubleQ, _, _ => .error "No closing quotation"
  | c :: rest, .normal, cur, acc =>
    if pyIsSpace c then
      match cur with
      | none => shlexRun rest .normal none acc
      | some t => shlexRun rest .normal none (t :: acc)
    else if c = '\'' then shlexRun rest .singleQ (some (cur.getD "")) acc
    else if c = '"' then shlexRun rest .doubleQ (some (cur.getD "")) acc
    else if c = '\\' then shlexRun rest .escaped (some (cur.getD "")) acc
    else shlexRun rest .normal (some ((cur.getD "").push c)) acc
  | c :: rest, .escaped, cur, acc =>
    shlexRun rest .normal (some ((cur.getD "").push c)) acc
  | c :: rest, .singleQ, cur, acc =>
    if c = '\'' then shlexRun rest .normal cur acc
    else shlexRun rest .singleQ (some ((cur.getD "").push c)) acc
  | c :: rest, .doubleQ, cur, acc =>
    if c = '"' then shlexRun rest .normal cur acc
    else if c = '\\' then shlexRun rest .doubleQEsc cur acc
    else shlexRun rest .doubleQ (some ((cur.getD "").push c)) acc
  | c :: rest, .doubleQEsc, cur, acc =>
    if c = '"' || c = '\\' then shlexRun rest .doubleQ (some ((cur.getD "").push c)) acc
    else shlexRun rest .doubleQ (some (((cur.getD "").push '\\').push c)) acc

/-- Python `shlex.split(command)` as used by the validator and executor:
tokens on success, the `ValueError` message on a lexing failure. -/
def shlex_split (s : String) : Except String (List String) :=
  shlexRun s.data .normal none []


/-- `ALLOWED_SUBCOMMANDS` from `config.py` (a `frozenset` in the source;
membership is the only operation used, plus the sorted join below). -/
def ALLOWED_SUBCOMMANDS : List String :=
  ["log", "show", "rev-list", "rev-parse", "describe", "status",
   "shortlog", "cat-file", "diff", "ls-tree", "grep", "blame"]

/-- Python `", ".join(sorted(ALLOWED_SUBCOMMANDS))`, with the sorted order
written out (lexicographic on ASCII). -/
def allowedSortedJoined : String :=
  String.intercalate ", "
    ["blame", "cat-file", "describe", "diff", "grep", "log",
     "ls-tree", "rev-list", "rev-parse", "shortlog", "show", "status"]

/-- Python exception classes that reach the embedded code paths:
`ValueError` (from `shlex`), `CommandPlanError` (the planner's typed
error, a `RuntimeError` subclass), and `AttributeError` (calling `.get`
on a non-dict plan entry). -/
inductive PyError where
  | valueError (msg : String)
  | commandPlanError (msg : String)
  | attributeError (msg : String)
deriving DecidableEq, Repr

/-- `_validate_command` from `repo_agent/command_agent.py` (lines 110-120).
The source merges the empty-token and wrong-first-token cases in a single
`if not parts or parts[0] != "git"` test; a `shlex` lexing failure
escapes as an uncaught `ValueError`. -/
def validate_command (command : String) : Except PyError Unit :=
  match shlex_split command with
  | .error msg => .error (.valueError msg)
  | .ok [] => .error (.commandPlanError "Commands must start with 'git'.")
  | .ok (first :: rest) =>
    if first ≠ "git" then
      .error (.commandPlanError "Commands must start with 'git'.")
    else
      match rest with
      | [] => .error (.commandPlanError "Commands must include a subcommand, e.g., 'git log'.")
      | subcommand :: _ =>
        if ALLOWED_SUBCOMMANDS.contains subcommand then .ok ()
        else
          .error (.commandPlanError
            ("Subcommand '" ++ subcommand ++ "' is not allowed. Allowed: "
              ++ allowedSortedJoined ++ "."))


/-- Outcome of one `subprocess.run` invocation, as observed by `run_git`:
exit status and captured text streams.  The subprocess itself is external,
so it enters the embedding as an oracle `List String → String → ProcOutcome`
mapping the argument vector and working directory to an outcome. -/
structure ProcOutcome where
  returncode : Nat
  stdout : String
  stderr : String

/-- Oracle standing for the host `git` binary: argument vector (including
the leading program name) and working directory to process outcome. -/
def ProcOracle : Type := List String → String → ProcOutcome

/-- One recorded invocation of the process runner `run_git`: the argument
vector it was given (without the leading program name, which `run_git`
itself prepends) and the working directory. -/
structure RunnerCall where
  args : List String
  cwd : String
deriving DecidableEq, Repr

/-- Python `repr` of a string without special characters, as it appears in
`str(CalledProcessError)` (all strings reaching it here are plain git
tokens). -/
def pyStrRepr (s : String) : String := "'" ++ s ++ "'"

/-- Python `str` of a list of strings, e.g. `['git', 'log']`. -/
def pyListRepr (l : List String) : String :=
  "[" ++ String.intercalate ", " (l.map pyStrRepr) ++ "]"

/-- Message of `GitError` as built on line 24 of `git_utils.py`:
`exc.stderr.strip() or exc.stdout.strip() or str(exc)`, where `str(exc)`
for a `CalledProcessError` with a non-negative exit status reads
`Command '<cmd>' returned non-zero exit status <n>.`. -/
def gitErrorMsg (cmd : List String) (r : ProcOutcome) : String :=
  if pyStrip r.stderr ≠ "" then pyStrip r.stderr
  else if pyStrip r.stdout ≠ "" then pyStrip r.stdout
  else "Command " ++ pyStrRepr (pyListRepr cmd) ++ " returned non-zero exit status "
    ++ toString r.returncode ++ "."

/-- `run_git` from `git_utils.py` (lines 12-25): prepends the program name,
runs the subprocess in `repo_path`; exit 0 yields the trimmed stdout,
otherwise a `GitError` whose message is `gitErrorMsg`.  The second
component is the runner-invocation trace (exactly one call). -/
def run_git (proc : ProcOracle) (args : List String) (repo_path : String) :
    Except String String × List RunnerCall :=
  let cmd := "git" :: args
  let r := proc cmd repo_path
  (if r.returncode = 0 then .ok (pyStrip r.stdout) else .error (gitErrorMsg cmd r),
   [⟨args, repo_path⟩])

/-- `try_git` from `git_utils.py` (lines 28-32): same call, but a
`GitError` is converted to the sentinel string instead of propagating. -/
def try_git (proc : ProcOracle) (args : List String) (repo_path : String) :
    String × List RunnerCall :=
  let rg := run_git proc args repo_path
  (match rg.1 with
   | .ok out => out
   | .error msg => "<git error: " ++ msg ++ ">", rg.2)

/-- `MAX_COMMANDS` from `config.py`. -/
def MAX_COMMANDS : Nat := 4

/-- `MAX_OUTPUT_CHARS` from `config.py`. -/
def MAX_OUTPUT_CHARS : Nat := 4000

/-- `_truncate_output`, identical in `repo_agent/command_agent.py`
(lines 149-155) and `repo_lens/command_agent.py` (lines 114-120). -/
def truncate_output (text : String) : String :=
  let stripped := pyStrip text
  if stripped = "" then "<no output>"
  else if stripped.length ≤ MAX_OUTPUT_CHARS then stripped
  else pyRStrip ⟨stripped.data.take (MAX_OUTPUT_CHARS - 20)⟩ ++ "\n...[truncated]"

/-- `PlannedCommand` dataclass. -/
structure PlannedCommand where
  command : String
  reason : String
deriving DecidableEq, Repr

/-- `CommandExecution` dataclass. -/
structure CommandExecution where
  command : String
  reason : String
  output : String
  success : Bool
deriving DecidableEq, Repr

/-- `AgentRunResult` dataclass. -/
structure AgentRunResult where
  plan : List PlannedCommand
  executions : List CommandExecution
  answer : String

/-- The fields of `Settings` (from `config.py`) that the embedded code
paths read.  The repository path is kept as the string `str(repo_path)`
interpolated into context text. -/
structure Settings where
  repo_path : String
  commit_history_limit : Nat
  include_diff : Bool
  plan_system_prompt : String
  answer_system_prompt : String

/-- `gather_repo_context` from `context_builder.py`: fixed sequence of
read-only inspections through `try_git`, labeled and joined by blank
lines (empty parts filtered, as in the source's generator expression).
Returns the context string and the runner-invocation trace. -/
def gather_repo_context (proc : ProcOracle) (settings : Settings)
    (grep : Option String) : String × List RunnerCall :=
  let repo := settings.repo_path
  let branchP := try_git proc ["rev-parse", "--abbrev-ref", "HEAD"] repo
  let statusP := try_git proc ["status", "-sb"] repo
  let logP := try_git proc
    ["log", "-n" ++ toString settings.commit_history_limit, "--date=short",
     "--pretty=format:%h | %an | %ad | %s"] repo
  let parts :=
    ["Repository: " ++ repo, "Branch: " ++ branchP.1, "Status:\n" ++ statusP.1,
     "Recent commits:\n" ++ logP.1]
  let grepP :=
    match grep with
    | some g =>
      if g ≠ "" then
        let p := try_git proc
          ["log", "--date=short", "--pretty=format:%h | %an | %ad | %s",
           "--grep=" ++ g] repo
        (["Grep results:\n" ++ p.1], p.2)
      else ([], [])
    | none => ([], [])
  let diffP :=
    if settings.include_diff then
      let stagedP := try_git proc ["diff", "--staged"] repo
      let workingP := try_git proc ["diff"] repo
      (["Staged diff:\n" ++ stagedP.1, "Working diff:\n" ++ workingP.1],
       stagedP.2 ++ workingP.2)
    else ([], [])
  let parts := parts ++ grepP.1 ++ diffP.1
  (String.intercalate "\n\n" (parts.filter (· ≠ "")),
   branchP.2 ++ statusP.2 ++ logP.2 ++ grepP.2 ++ diffP.2)

/-- `GitTool.forward` from `repo_lens/command_agent.py` (lines 64-111):
validates, executes through `run_git`, records a `CommandExecution`, and
returns the tool-output string.  A `shlex` `ValueError` is caught by the
trailing `except Exception` handler (`Unexpected error: ...`); a
`GitError` by its own handler (`Git error: ...`).  Result: tool output,
updated executions list (the source appends in place), runner trace. -/
def GitTool.forward (proc : ProcOracle) (settings : Settings)
    (executions : List CommandExecution) (command : String) :
    String × List CommandExecution × List RunnerCall :=
  match shlex_split command with
  | .error msg => ("Unexpected error: " ++ msg, executions, [])
  | .ok [] => ("Error: Command must start with 'git'.", executions, [])
  | .ok (first :: rest) =>
    if first ≠ "git" then
      ("Error: Command must start with 'git'.", executions, [])
    else
      match rest with
      | [] => ("Error: Command must include a subcommand, e.g., 'git log'.", executions, [])
      | subcommand :: _ =>
        if ¬ ALLOWED_SUBCOMMANDS.contains subcommand then
          ("Error: Subcommand '" ++ subcommand ++ "' is not allowed. Allowed: "
             ++ allowedSortedJoined ++ ".", executions, [])
        else
          match run_git proc rest settings.repo_path with
          | (.ok output, tr) =>
            (output,
             executions ++ [⟨command, "Step in agent reasoning loop",
                             truncate_output output, true⟩], tr)
          | (.error err_msg, tr) =>
            ("Git error: " ++ err_msg,
             executions ++ [⟨command, "Step in agent reasoning loop", err_msg, false⟩], tr)

/-- JSON values, the possible results of Python `json.loads`. -/
inductive JValue where
  | null
  | bool (b : Bool)
  | num (n : Int)
  | str (s : String)
  | arr (items : List JValue)
  | obj (fields : List (String × JValue))

/-- Python `dict.get(key)` on a JSON object (`None` when absent). -/
def jGet (fields : List (String × JValue)) (key : String) : Option JValue :=
  (fields.find? (fun kv => kv.fst == key)).map (fun kv => kv.snd)

/-- Index of the first occurrence of `pat` in a character list, Python
`str.find` style. -/
def findSubIdx (pat : List Char) : List Char → Option Nat
  | [] => if pat.isEmpty then some 0 else none
  | c :: rest =>
    if pat.isPrefixOf (c :: rest) then some 0
    else (findSubIdx pat rest).map (· + 1)

/-- Index of the last occurrence of `pat` in a character list. -/
def findLastSubIdx (pat : List Char) : List Char → Option Nat
  | [] => if pat.isEmpty then some 0 else none
  | c :: rest =>
    match findLastSubIdx pat rest with
    | some j => some (j + 1)
    | none => if pat.isPrefixOf (c :: rest) then some 0 else none

/-- Python `s.split(sep, 1)[-1]`: everything after the first occurrence of
`sep`, or the whole string when `sep` is absent. -/
def pySplitOnceLast (s sep : String) : String :=
  match findSubIdx sep.data s.data with
  | none => s
  | some i => ⟨s.data.drop (i + sep.length)⟩

/-- Python `s.rsplit(sep, 1)[0]`: everything before the last occurrence of
`sep`, or the whole string when `sep` is absent. -/
def pyRSplitOnceFirst (s sep : String) : String :=
  match findLastSubIdx sep.data s.data with
  | none => s
  | some i => ⟨s.data.take i⟩

/-- Python `str.startswith`. -/
def pyStartsWith (s pat : String) : Bool := pat.data.isPrefixOf s.data

/-- Python `str.endswith`. -/
def pyEndsWith (s pat : String) : Bool := pat.data.isSuffixOf s.data

/-- `_strip_code_fence` from `repo_agent/command_agent.py` (lines 50-56). -/
def strip_code_fence (text : String) : String :=
  let trimmed := pyStrip text
  if pyStartsWith trimmed "```" && pyEndsWith trimmed "```" then
    let inner := pySplitOnceLast trimmed "\n"
    let inner := pyRSplitOnceFirst inner "```"
    pyStrip inner
  else trimmed

/-- Line 63-64 of `repo_agent/command_agent.py`: when a closing thinking
tag is present, keep only what follows its first occurrence, stripped. -/
def splitThinkTail (s : String) : String :=
  match findSubIdx "</think>".data s.data with
  | none => s
  | some i => pyStrip ⟨s.data.drop (i + 8)⟩

/-- Python `re.sub` of the non-greedy dotall pattern for paired thinking
tags with the empty string: repeatedly drop the region from the first
opening tag through the first closing tag after it.  Fueled by the input
length (each step consumes at least one character). -/
def removeThinkBlocks : Nat → List Char → List Char
  | 0, l => l
  | fuel + 1, l =>
    match findSubIdx "<think>".data l with
    | none => l
    | some i =>
      let afterOpen := l.drop (i + 7)
      match findSubIdx "</think>".data afterOpen with
      | none => l
      | some j => l.take i ++ removeThinkBlocks fuel (afterOpen.drop (j + 8))

/-- The `candidate` string of `_load_plan_json` (lines 59-66): code fence
stripped, thinking tail cut, paired thinking blocks removed, stripped. -/
def plan_candidate (raw : String) : String :=
  let candidate := strip_code_fence raw
  let candidate := splitThinkTail candidate
  pyStrip ⟨removeThinkBlocks candidate.data.length candidate.data⟩

/-- Oracle standing for Python `json.loads` (`none` = `JSONDecodeError`). -/
def JsonLoads : Type := String → Option JValue

/-- `_load_plan_json` (lines 59-71): parse the cleaned candidate, or raise
`CommandPlanError` carrying the offending text. -/
def load_plan_json (jsonLoads : JsonLoads) (raw : String) : Except PyError JValue :=
  let candidate := plan_candidate raw
  match jsonLoads candidate with
  | some v => .ok v
  | none => .error (.commandPlanError ("LLM returned invalid JSON: " ++ candidate))

/-- Python `isinstance(x, str)` on an optional JSON value: the string
when the value is present and string-typed, else `none`. -/
def asStr : Option JValue → Option String
  | some (.str s) => some s
  | _ => none

/-- Body of the per-entry loop of `plan_git_commands` (lines 100-106):
`.get` on a non-dict entry raises `AttributeError`; non-string fields
raise `CommandPlanError`; the command is validated and both fields are
stored stripped. -/
def plan_entry (entry : JValue) : Except PyError PlannedCommand :=
  match entry with
  | .obj fields =>
    match asStr (jGet fields "command"), asStr (jGet fields "reason") with
    | some command, some reason =>
      match validate_command command with
      | .error e => .error e
      | .ok () => .ok ⟨pyStrip command, pyStrip reason⟩
    | _, _ =>
      .error (.commandPlanError "Each command must include 'command' and 'reason' strings.")
  | _ => .error (.attributeError "get")

/-- The loop of `plan_git_commands` over the (already truncated) entry
list: first failure aborts, order is preserved. -/
def plan_entries : List JValue → Except PyError (List PlannedCommand)
  | [] => .ok []
  | e :: rest =>
    match plan_entry e with
    | .error err => .error err
    | .ok pc =>
      match plan_entries rest with
      | .error err => .error err
      | .ok tail => .ok (pc :: tail)

/-- Lines 95-107 of `plan_git_commands`, applied to the loaded JSON value:
`data.get("commands", [])`, the list-shape check, truncation to
`MAX_COMMANDS`, and the entry loop.  `.get` on a non-object raises
`AttributeError`. -/
def plan_from_data (data : JValue) : Except PyError (List PlannedCommand) :=
  match data with
  | .obj fields =>
    match (jGet fields "commands").getD (.arr []) with
    | .arr entries => plan_entries (entries.take MAX_COMMANDS)
    | _ => .error (.commandPlanError "LLM response is missing a 'commands' list.")
  | _ => .error (.attributeError "get")

/-- Oracle standing for `LiteLLMClient.chat_messages`: a list of
(role, content) messages to the response text. -/
def ChatOracle : Type := List (String × String) → String

/-- The message list built by `plan_git_commands` (lines 81-92). -/
def plan_messages (settings : Settings) (context question : String) :
    List (String × String) :=
  [("system", settings.plan_system_prompt),
   ("user", "Repository context:\n" ++ context ++ "\n\nQuestion: " ++ question
      ++ "\nReturn at most " ++ toString MAX_COMMANDS ++ " commands.")]

/-- `plan_git_commands` from `repo_agent/command_agent.py` (lines 74-107). -/
def plan_git_commands (jsonLoads : JsonLoads) (chat : ChatOracle)
    (settings : Settings) (context question : String) :
    Except PyError (List PlannedCommand) :=
  let raw_plan := chat (plan_messages settings context question)
  match load_plan_json jsonLoads raw_plan with
  | .error e => .error e
  | .ok data => plan_from_data data

/-- `execute_git_plan` from `repo_agent/command_agent.py` (lines 123-146):
re-tokenizes each stored command (an untokenizable one raises the
uncaught `shlex` `ValueError`), drops the leading program token, runs the
rest, and records one `CommandExecution` per command with truncated
output; a `GitError` is captured per entry, not raised.  The second
component of a successful run is the runner-invocation trace. -/
def execute_git_plan (proc : ProcOracle) (repo_path : String) :
    List PlannedCommand → Except PyError (List CommandExecution) × List RunnerCall
  | [] => (.ok [], [])
  | item :: restPlan =>
    match shlex_split item.command with
    | .error msg => (.error (.valueError msg), [])
    | .ok parts =>
      let git_args := parts.drop 1
      let rg := run_git proc git_args repo_path
      let output := match rg.1 with | .ok out => out | .error msg => msg
      let success := match rg.1 with | .ok _ => true | .error _ => false
      let restR := execute_git_plan proc repo_path restPlan
      (match restR.1 with
       | .error e => .error e
       | .ok execs =>
         .ok (⟨item.command, item.reason, truncate_output output, success⟩ :: execs),
       rg.2 ++ restR.2)

/-- `generate_final_answer` from `repo_agent/command_agent.py`
(lines 158-193). -/
def generate_final_answer (chat : ChatOracle) (settings : Settings)
    (context question : String) (executions : List CommandExecution) : String :=
  let commands_text :=
    if executions = [] then
      "No commands were executed. Answer using the repository context only."
    else
      String.intercalate "\n\n" (executions.map (fun r =>
        "Command: " ++ r.command ++ "\nReason: " ++ r.reason ++ "\nSuccess: "
          ++ (if r.success then "yes" else "no") ++ "\nOutput:\n" ++ r.output))
  chat [("system", settings.answer_system_prompt),
        ("user", "Repository context:\n" ++ context ++ "\n\nQuestion: " ++ question
           ++ "\n\nExecuted command outputs:\n" ++ commands_text
           ++ "\n\nProvide a concise answer that cites commands or commit hashes when possible.")]

/-- `run_command_agent` from `repo_agent/command_agent.py` (lines 196-212):
gather context, plan, execute, synthesize.  An error from planning or
execution propagates (the source raises); the trace records every runner
invocation that happened before the raise. -/
def run_command_agent (proc : ProcOracle) (jsonLoads : JsonLoads)
    (chat : ChatOracle) (settings : Settings) (question : String) :
    Except PyError AgentRunResult × List RunnerCall :=
  let ctx := gather_repo_context proc settings none
  match plan_git_commands jsonLoads chat settings ctx.1 question with
  | .error e => (.error e, ctx.2)
  | .ok plan =>
    let ex := execute_git_plan proc settings.repo_path plan
    match ex.1 with
    | .error e => (.error e, ctx.2 ++ ex.2)
    | .ok executions =>
      let answer := generate_final_answer chat settings ctx.1 question executions
      (.ok ⟨plan, executions, answer⟩, ctx.2 ++ ex.2)

/-- Modelled from the spec (§4.1): the Validator's failure kinds. -/
inductive ValidationError where
  | EmptyCommand
  | NotGitCommand
  | MissingSubcommand
  | SubcommandNotAllowed (sub : String)
deriving DecidableEq, Repr

/-- Modelled from the spec: the Validator accepts iff the command is
tokenizable, its first token is the program name, it has at least two
tokens, and its second token is allow-listed. -/
def spec_accepts (command : String) : Bool :=
  match shlex_split command with
  | .error _ => false
  | .ok parts =>
    parts.head? == some "git" && decide (2 ≤ parts.length)
      && ALLOWED_SUBCOMMANDS.contains (parts.getD 1 "")

/-- Modelled from the spec (§4.1, as the claim states it): the failure
kind for each rejected tokenizable command, with a distinct
`EmptyCommand` kind for zero tokens. -/
def spec_reject_kind (command : String) : Option ValidationError :=
  match shlex_split command with
  | .error _ => none
  | .ok [] => some .EmptyCommand
  | .ok (first :: rest) =>
    if first ≠ "git" then some .NotGitCommand
    else
      match rest with
      | [] => some .MissingSubcommand
      | sub :: _ =>
        if ALLOWED_SUBCOMMANDS.contains sub then none
        else some (.SubcommandNotAllowed sub)

/-- The failure kinds as the code actually distinguishes them: zero
tokens is merged with a wrong first token (both trip the source's
`if not parts or parts[0] != "git"`), so `EmptyCommand` never arises. -/
def spec_reject_kind_amended (command : String) : Option ValidationError :=
  match shlex_split command with
  | .error _ => none
  | .ok [] => some .NotGitCommand
  | .ok (first :: rest) =>
    if first ≠ "git" then some .NotGitCommand
    else
      match rest with
      | [] => some .MissingSubcommand
      | sub :: _ =>
        if ALLOWED_SUBCOMMANDS.contains sub then none
        else some (.SubcommandNotAllowed sub)

/-- The `CommandPlanError` message `_validate_command` raises for each
failure kind (the code has no distinct empty-command message; the
`EmptyCommand` row records the message an empty command actually gets). -/
def plan_error_message : ValidationError → String
  | .EmptyCommand => "Commands must start with 'git'."
  | .NotGitCommand => "Commands must start with 'git'."
  | .MissingSubcommand => "Commands must include a subcommand, e.g., 'git log'."
  | .SubcommandNotAllowed sub =>
    "Subcommand '" ++ sub ++ "' is not allowed. Allowed: " ++ allowedSortedJoined ++ "."

/-- The denial string `GitTool.forward` returns for each failure kind. -/
def forward_error_message : ValidationError → String
  | .EmptyCommand => "Error: Command must start with 'git'."
  | .NotGitCommand => "Error: Command must start with 'git'."
  | .MissingSubcommand => "Error: Command must include a subcommand, e.g., 'git log'."
  | .SubcommandNotAllowed sub =>
    "Error: Subcommand '" ++ sub ++ "' is not allowed. Allowed: " ++ allowedSortedJoined ++ "."

/-- The truncation marker appended by `_truncate_output`. -/
def truncation_marker : String := "\n...[truncated]"

/-- The string ends with the truncation marker. -/
def ends_with_marker (s : String) : Prop := truncation_marker.data <:+ s.data

instance (s : String) : Decidable (ends_with_marker s) := by
  unfold ends_with_marker; infer_instance

/-- A JSON object carrying a commands list, for stating truncation. -/
def mkCommandsData (entries : List JValue) : JValue :=
  .obj [("commands", .arr entries)]

/-- Correspondence between a retained JSON plan entry and the
`PlannedCommand` built from it. -/
def entryMatches (e : JValue) (pc : PlannedCommand) : Prop :=
  ∃ fields c r, e = .obj fields ∧ jGet fields "command" = some (.str c)
    ∧ jGet fields "reason" = some (.str r) ∧ pc = ⟨pyStrip c, pyStrip r⟩

/-- Fixture: a process oracle whose subprocess always succeeds silently. -/
def procOk0 : ProcOracle := fun _ _ => ⟨0, "", ""⟩

/-- Fixture: a process oracle whose subprocess always fails with stderr
`boom`. -/
def procBoom : ProcOracle := fun _ _ => ⟨1, "", "boom"⟩

/-- Fixture: settings with diffs disabled. -/
def settings0 : Settings := ⟨"/repo", 8, false, "plan prompt", "answer prompt"⟩

/-- Fixture: a `json.loads` oracle that always fails to parse. -/
def jsonLoadsNone : JsonLoads := fun _ => none

/-- Fixture: a chat oracle answering a fixed non-JSON string. -/
def chatNotJson : ChatOracle := fun _ => "notjson"

/-- Fixture: a `json.loads` oracle that always yields the empty object. -/
def jsonLoadsEmptyObj : JsonLoads := fun _ => some (.obj [])

/-- Fixture: a `json.loads` oracle yielding an object whose commands
field is a string, not a list. -/
def jsonLoadsStrCommands : JsonLoads := fun _ => some (.obj [("commands", .str "nope")])

/-- Fixture: a JSON plan entry with the given command and reason. -/
def mkEntry (c r : String) : JValue :=
  .obj [("command", .str c), ("reason", .str r)]

/-- Fixture: six well-formed plan entries (claim C6's scenario). -/
def sixEntries : List JValue :=
  [mkEntry "git log -n5" "one", mkEntry "git status" "two",
   mkEntry "git show HEAD" "three", mkEntry "git diff" "four",
   mkEntry "git blame README" "five", mkEntry "git grep TODO" "six"]

example : pyStrip "  a b\n" = "a b" := by decide

example : shlex_split "git log -n5" = .ok ["git", "log", "-n5"] := by decide

example : shlex_split "git log --grep=\"fix bug\"" = .ok ["git", "log", "--grep=fix bug"] := by decide

example : shlex_split "git log \"unclosed" = .error "No closing quotation" := by decide

example : shlex_split "a ''" = .ok ["a", ""] := by decide

example : validate_command "git log -n5" = .ok () := by decide

example : validate_command "git" =
    .error (.commandPlanError "Commands must include a subcommand, e.g., 'git log'.") := by decide

theorem data_mk (l : List Char) : (String.mk l).data = l := rfl

theorem length_mk (l : List Char) : (String.mk l).length = l.length := rfl

theorem dropWhile_head?_false {p : α → Bool} {l : List α} {c : α}
    (h : (l.dropWhile p).head? = some c) : p c = false := by
  have hx := List.head?_dropWhile_not p l
  rw [h] at hx
  exact hx

theorem dropWhile_eq_self_of_head? {p : α → Bool} {l : List α}
    (h : ∀ c, l.head? = some c → p c = false) : l.dropWhile p = l := by
  cases l with
  | nil => rfl
  | cons a t =>
    have ha : p a = false := h a rfl
    simp [List.dropWhile_cons, ha]

theorem pyStripChars_idem (l : List Char) :
    pyStripChars (pyStripChars l) = pyStripChars l := by
  unfold pyStripChars
  have h1 : (((l.dropWhile pyIsSpace).reverse.dropWhile pyIsSpace).reverse).dropWhile pyIsSpace
      = ((l.dropWhile pyIsSpace).reverse.dropWhile pyIsSpace).reverse := by
    apply dropWhile_eq_self_of_head?
    intro c hc
    rw [List.head?_reverse] at hc
    obtain ⟨t, ht⟩ := List.dropWhile_suffix (l := (l.dropWhile pyIsSpace).reverse) pyIsSpace
    have hlast : ((l.dropWhile pyIsSpace).reverse).getLast? = some c := by
      rw [← ht, List.getLast?_append, hc]
      rfl
    rw [List.getLast?_reverse] at hlast
    exact dropWhile_head?_false hlast
  rw [h1, List.reverse_reverse]
  have h2 : ((l.dropWhile pyIsSpace).reverse.dropWhile pyIsSpace).dropWhile pyIsSpace
      = (l.dropWhile pyIsSpace).reverse.dropWhile pyIsSpace := by
    apply dropWhile_eq_self_of_head?
    intro c hc
    exact dropWhile_head?_false hc
  rw [h2]

theorem pyStrip_idem (s : String) : pyStrip (pyStrip s) = pyStrip s := by
  unfold pyStrip
  exact congrArg String.mk (pyStripChars_idem s.data)

theorem length_pyStripChars_le (l : List Char) : (pyStripChars l).length ≤ l.length := by
  unfold pyStripChars
  calc (((l.dropWhile pyIsSpace).reverse.dropWhile pyIsSpace).reverse).length
      = ((l.dropWhile pyIsSpace).reverse.dropWhile pyIsSpace).length := by
        rw [List.length_reverse]
    _ ≤ ((l.dropWhile pyIsSpace).reverse).length :=
        (List.dropWhile_suffix pyIsSpace).sublist.length_le
    _ = (l.dropWhile pyIsSpace).length := by rw [List.length_reverse]
    _ ≤ l.length := (List.dropWhile_suffix pyIsSpace).sublist.length_le

theorem pyStrip_length_le (s : String) : (pyStrip s).length ≤ s.length :=
  length_pyStripChars_le s.data

theorem pyRStrip_length_le (s : String) : (pyRStrip s).length ≤ s.length := by
  unfold pyRStrip
  calc ((s.data.reverse.dropWhile pyIsSpace).reverse).length
      = (s.data.reverse.dropWhile pyIsSpace).length := by rw [List.length_reverse]
    _ ≤ s.data.reverse.length := (List.dropWhile_suffix pyIsSpace).sublist.length_le
    _ = s.length := by rw [List.length_reverse]; rfl

theorem truncate_output_ne_empty (s : String) : truncate_output s ≠ "" := by
  unfold truncate_output
  by_cases h : pyStrip s = ""
  · simp [h]
  · by_cases hl : (pyStrip s).length ≤ MAX_OUTPUT_CHARS
    · simp [h, hl]
    · simp only [h, hl, if_false, if_neg]
      intro he
      have hlen := congrArg String.length he
      rw [String.length_append] at hlen
      have h15 : ("\n...[truncated]" : String).length = 15 := rfl
      have h0 : ("" : String).length = 0 := rfl
      rw [h15, h0] at hlen
      omega

theorem validate_command_ok_iff (cmd : String) :
    validate_command cmd = .ok () ↔
      ∃ sub rest, shlex_split cmd = .ok ("git" :: sub :: rest) ∧
        ALLOWED_SUBCOMMANDS.contains sub = true := by
  unfold validate_command
  cases h : shlex_split cmd with
  | error msg => simp
  | ok parts =>
    cases parts with
    | nil => simp
    | cons first rest =>
      cases rest with
      | nil =>
        by_cases hf : first = "git" <;> simp [hf]
      | cons sub tl =>
        by_cases hf : first = "git"
        · subst hf
          by_cases hs : ALLOWED_SUBCOMMANDS.contains sub <;> simp [hs]
        · simp [hf]

/-- Claim C1 (amended): a command is accepted by the validator iff it is
tokenizable, its first token is `git`, it has at least two tokens and its
second token is allow-listed; an untokenizable command raises the `shlex`
`ValueError` in the plan path and yields the `Unexpected error` string in
the tool path; a tokenizable rejected command gets the failure message of
its kind, where a zero-token command is rejected exactly like a
wrong-first-token command (the code has no separate `EmptyCommand`
rejection); and the tool path records exactly one execution iff the
command is accepted. -/
theorem C1_validator_iff_allowlist (cmd : String) (proc : ProcOracle)
    (settings : Settings) (execs : List CommandExecution) :
    (validate_command cmd = .ok () ↔ spec_accepts cmd = true) ∧
    (∀ msg, shlex_split cmd = .error msg →
       validate_command cmd = .error (.valueError msg) ∧
       GitTool.forward proc settings execs cmd = ("Unexpected error: " ++ msg, execs, [])) ∧
    (∀ k, spec_reject_kind_amended cmd = some k →
       validate_command cmd = .error (.commandPlanError (plan_error_message k)) ∧
       GitTool.forward proc settings execs cmd = (forward_error_message k, execs, [])) ∧
    (spec_accepts cmd = true →
       ∃ e, ((GitTool.forward proc settings execs cmd).2).1 = execs ++ [e]) := by
  cases h : shlex_split cmd with
  | error msg0 =>
    refine ⟨?_, ?_, ?_, ?_⟩
    · simp [validate_command, spec_accepts, h]
    · intro msg hmsg
      cases hmsg
      exact ⟨by simp [validate_command, h], by simp [GitTool.forward, h]⟩
    · intro k hk
      simp [spec_reject_kind_amended, h] at hk
    · intro ha
      simp [spec_accepts, h] at ha
  | ok parts =>
    cases parts with
    | nil =>
      refine ⟨?_, ?_, ?_, ?_⟩
      · simp [validate_command, spec_accepts, h]
      · intro msg hmsg
        cases hmsg
      · intro k hk
        simp only [spec_reject_kind_amended, h] at hk
        cases hk
        exact ⟨by simp [validate_command, h, plan_error_message],
               by simp [GitTool.forward, h, forward_error_message]⟩
      · intro ha
        simp [spec_accepts, h] at ha
    | cons first rest =>
      by_cases hf : first = "git"
      · subst hf
        cases rest with
        | nil =>
          refine ⟨?_, ?_, ?_, ?_⟩
          · simp [validate_command, spec_accepts, h]
          · intro msg hmsg
            cases hmsg
          · intro k hk
            simp only [spec_reject_kind_amended, h] at hk
            simp at hk
            cases hk
            exact ⟨by simp [validate_command, h, plan_error_message],
                   by simp [GitTool.forward, h, forward_error_message]⟩
          · intro ha
            simp [spec_accepts, h] at ha
        | cons sub tl =>
          by_cases hmem : sub ∈ ALLOWED_SUBCOMMANDS
          · refine ⟨?_, ?_, ?_, ?_⟩
            · simp [validate_command, spec_accepts, h, hmem, List.getD]
            · intro msg hmsg
              cases hmsg
            · intro k hk
              simp [spec_reject_kind_amended, h, hmem] at hk
            · intro _
              simp only [GitTool.forward, h]
              cases hrun : run_git proc (sub :: tl) settings.repo_path with
              | mk res tr =>
                cases res with
                | ok out =>
                  refine ⟨⟨cmd, "Step in agent reasoning loop", truncate_output out, true⟩, ?_⟩
                  simp [hmem, hrun]
                | error m =>
                  refine ⟨⟨cmd, "Step in agent reasoning loop", m, false⟩, ?_⟩
                  simp [hmem, hrun]
          · refine ⟨?_, ?_, ?_, ?_⟩
            · simp [validate_command, spec_accepts, h, hmem, List.getD]
            · intro msg hmsg
              cases hmsg
            · intro k hk
              simp only [spec_reject_kind_amended, h] at hk
              simp [hmem] at hk
              obtain rfl := hk.symm
              refine ⟨?_, ?_⟩
              · simp [validate_command, h, hmem, plan_error_message]
              · simp [GitTool.forward, h, hmem, forward_error_message]
            · intro ha
              simp [spec_accepts, h, hmem, List.getD] at ha
      · refine ⟨?_, ?_, ?_, ?_⟩
        · simp [validate_command, spec_accepts, h, hf]
        · intro msg hmsg
          cases hmsg
        · intro k hk
          simp only [spec_reject_kind_amended, h] at hk
          simp [hf] at hk
          cases hk
          exact ⟨by simp [validate_command, h, hf, plan_error_message],
                 by simp [GitTool.forward, h, hf, forward_error_message]⟩
        · intro ha
          simp [spec_accepts, h, hf] at ha

/-- Witness for C1: the forbidden `git reset --hard` is rejected on both
paths with the `SubcommandNotAllowed` message. -/
theorem C1_witness :
    validate_command "git reset --hard" =
      .error (.commandPlanError (plan_error_message (.SubcommandNotAllowed "reset"))) ∧
    GitTool.forward procOk0 settings0 [] "git reset --hard" =
      (forward_error_message (.SubcommandNotAllowed "reset"), [], []) :=
  (C1_validator_iff_allowlist "git reset --hard" procOk0 settings0 []).2.2.1
    (.SubcommandNotAllowed "reset") (by decide)

/-- Counterexample to C1 as stated: the claim assigns the zero-token
command the kind `EmptyCommand` and a wrong-first-token command the kind
`NotGitCommand`, but the code rejects both with literally the same
`CommandPlanError` (and `GitTool.forward` with the same denial string),
so no distinct `EmptyCommand` rejection exists. -/
theorem C1_counterexample :
    spec_reject_kind "" = some .EmptyCommand ∧
    spec_reject_kind "echo hi" = some .NotGitCommand ∧
    validate_command "" = validate_command "echo hi" ∧
    validate_command "" = .error (.commandPlanError "Commands must start with 'git'.") ∧
    GitTool.forward procOk0 settings0 [] "" = GitTool.forward procOk0 settings0 [] "echo hi" := by
  refine ⟨by decide, by decide, by decide, by decide, by decide⟩

/-- Claim C10: an unbalanced quote makes `_validate_command` raise the
`shlex` `ValueError` (`No closing quotation`) instead of a
`CommandPlanError`, so the plan path aborts with an untyped tokenization
error, while `GitTool.forward` catches it in its generic handler and
returns an `Unexpected error` string to the model. -/
theorem C10_unbalanced_quote_valueerror (proc : ProcOracle) (settings : Settings)
    (execs : List CommandExecution) :
    validate_command "git log \"unclosed" = .error (.valueError "No closing quotation") ∧
    GitTool.forward proc settings execs "git log \"unclosed" =
      ("Unexpected error: No closing quotation", execs, []) := by
  have h : shlex_split "git log \"unclosed" = .error "No closing quotation" := by decide
  exact ⟨by simp [validate_command, h], by simp [GitTool.forward, h]⟩

theorem run_git_trace (proc : ProcOracle) (args : List String) (repo : String) :
    (run_git proc args repo).2 = [⟨args, repo⟩] := rfl

/-- Claim C2: executing a plan of validator-accepted commands passes the
process runner, for each command, exactly the command's shlex tokens
minus the leading `git` token, so every argument vector's first element
is an allow-listed subcommand; and every accepted command tokenizes to
`git`, a subcommand and a tail, with the subcommand allow-listed. -/
theorem C2_executed_args_allowlisted (proc : ProcOracle) (repo : String)
    (plan : List PlannedCommand)
    (h : ∀ item ∈ plan, validate_command item.command = .ok ()) :
    ∃ execs calls, execute_git_plan proc repo plan = (.ok execs, calls) ∧
      List.Forall₂ (fun (item : PlannedCommand) (call : RunnerCall) =>
        call.cwd = repo ∧
        ∃ sub rest, shlex_split item.command = .ok ("git" :: sub :: rest) ∧
          call.args = sub :: rest ∧ ALLOWED_SUBCOMMANDS.contains sub = true)
        plan calls ∧
      (∀ call ∈ calls, ∃ sub rest, call.args = sub :: rest ∧
        ALLOWED_SUBCOMMANDS.contains sub = true) ∧
      (∀ item ∈ plan, ∃ sub rest, shlex_split item.command = .ok ("git" :: sub :: rest) ∧
        ALLOWED_SUBCOMMANDS.contains sub = true) := by
  induction plan with
  | nil =>
    exact ⟨[], [], rfl, List.Forall₂.nil, by simp, by simp⟩
  | cons item rest ih =>
    have hitem := h item (List.mem_cons_self item rest)
    obtain ⟨sub, tl, hsplit, hcon⟩ := (validate_command_ok_iff item.command).1 hitem
    obtain ⟨execs, calls, hexec, hfa, hcalls, hplan⟩ :=
      ih (fun i hi => h i (List.mem_cons_of_mem item hi))
    cases hrun : (run_git proc (sub :: tl) repo).1 with
    | ok out =>
      refine ⟨⟨item.command, item.reason, truncate_output out, true⟩ :: execs,
              ⟨sub :: tl, repo⟩ :: calls, ?_, ?_, ?_, ?_⟩
      · simp only [execute_git_plan, hsplit, List.drop_succ_cons, List.drop_zero,
          hrun, hexec, run_git_trace, List.singleton_append]
      · exact List.Forall₂.cons ⟨rfl, sub, tl, hsplit, rfl, hcon⟩ hfa
      · intro call hc
        rcases List.mem_cons.mp hc with rfl | hc
        · exact ⟨sub, tl, rfl, hcon⟩
        · exact hcalls call hc
      · intro i hi
        rcases List.mem_cons.mp hi with rfl | hi
        · exact ⟨sub, tl, hsplit, hcon⟩
        · exact hplan i hi
    | error m =>
      refine ⟨⟨item.command, item.reason, truncate_output m, false⟩ :: execs,
              ⟨sub :: tl, repo⟩ :: calls, ?_, ?_, ?_, ?_⟩
      · simp only [execute_git_plan, hsplit, List.drop_succ_cons, List.drop_zero,
          hrun, hexec, run_git_trace, List.singleton_append]
      · exact List.Forall₂.cons ⟨rfl, sub, tl, hsplit, rfl, hcon⟩ hfa
      · intro call hc
        rcases List.mem_cons.mp hc with rfl | hc
        · exact ⟨sub, tl, rfl, hcon⟩
        · exact hcalls call hc
      · intro i hi
        rcases List.mem_cons.mp hi with rfl | hi
        · exact ⟨sub, tl, hsplit, hcon⟩
        · exact hplan i hi

/-- Witness for C2: a one-command accepted plan. -/
theorem C2_witness : ∃ execs calls,
    execute_git_plan procOk0 "/repo" [⟨"git log -n5", "recent history"⟩] = (.ok execs, calls) ∧
      List.Forall₂ (fun (item : PlannedCommand) (call : RunnerCall) =>
        call.cwd = "/repo" ∧
        ∃ sub rest, shlex_split item.command = .ok ("git" :: sub :: rest) ∧
          call.args = sub :: rest ∧ ALLOWED_SUBCOMMANDS.contains sub = true)
        [⟨"git log -n5", "recent history"⟩] calls ∧
      (∀ call ∈ calls, ∃ sub rest, call.args = sub :: rest ∧
        ALLOWED_SUBCOMMANDS.contains sub = true) ∧
      (∀ item ∈ [(⟨"git log -n5", "recent history"⟩ : PlannedCommand)],
        ∃ sub rest, shlex_split item.command = .ok ("git" :: sub :: rest) ∧
          ALLOWED_SUBCOMMANDS.contains sub = true) :=
  C2_executed_args_allowlisted procOk0 "/repo" [⟨"git log -n5", "recent history"⟩]
    (by decide)

/-- Claim C3 (amended): for every plan all of whose commands tokenize —
in particular every validator-accepted plan — the executor returns
exactly one `CommandExecution` per planned command, in plan order; a
failing subprocess yields `success = false` with the truncated, non-empty
error message as output, and the remaining entries still execute (the
result stays a full-length `.ok` list). -/
theorem C3_executor_one_result_per_command (proc : ProcOracle) (repo : String)
    (plan : List PlannedCommand)
    (h : ∀ item ∈ plan, (shlex_split item.command).isOk = true) :
    ∃ execs calls, execute_git_plan proc repo plan = (.ok execs, calls) ∧
      execs.length = plan.length ∧
      List.Forall₂ (fun (item : PlannedCommand) (ex : CommandExecution) =>
        ex.command = item.command ∧ ex.reason = item.reason ∧ ex.output ≠ "" ∧
        ∃ parts, shlex_split item.command = .ok parts ∧
          (∀ out, (run_git proc (parts.drop 1) repo).1 = .ok out →
             ex.success = true ∧ ex.output = truncate_output out) ∧
          (∀ msg, (run_git proc (parts.drop 1) repo).1 = .error msg →
             ex.success = false ∧ ex.output = truncate_output msg))
        plan execs := by
  induction plan with
  | nil => exact ⟨[], [], rfl, rfl, List.Forall₂.nil⟩
  | cons item rest ih =>
    have hitem := h item (List.mem_cons_self item rest)
    obtain ⟨execs, calls, hexec, hlen, hfa⟩ :=
      ih (fun i hi => h i (List.mem_cons_of_mem item hi))
    cases hsplit : shlex_split item.command with
    | error msg =>
      rw [hsplit] at hitem
      simp [Except.isOk, Except.toBool] at hitem
    | ok parts =>
      cases hrun : (run_git proc (parts.drop 1) repo).1 with
      | ok out =>
        refine ⟨⟨item.command, item.reason, truncate_output out, true⟩ :: execs,
                ⟨parts.drop 1, repo⟩ :: calls, ?_, ?_, ?_⟩
        · simp only [execute_git_plan, hsplit, hrun, hexec, run_git_trace,
            List.singleton_append]
        · simp [hlen]
        · refine List.Forall₂.cons ⟨rfl, rfl, truncate_output_ne_empty out, parts, hsplit,
            ?_, ?_⟩ hfa
          · intro o ho
            rw [hrun] at ho
            cases ho
            exact ⟨rfl, rfl⟩
          · intro m hm
            rw [hrun] at hm
            cases hm
      | error m =>
        refine ⟨⟨item.command, item.reason, truncate_output m, false⟩ :: execs,
                ⟨parts.drop 1, repo⟩ :: calls, ?_, ?_, ?_⟩
        · simp only [execute_git_plan, hsplit, hrun, hexec, run_git_trace,
            List.singleton_append]
        · simp [hlen]
        · refine List.Forall₂.cons ⟨rfl, rfl, truncate_output_ne_empty m, parts, hsplit,
            ?_, ?_⟩ hfa
          · intro o ho
            rw [hrun] at ho
            cases ho
          · intro m2 hm
            rw [hrun] at hm
            cases hm
            exact ⟨rfl, rfl⟩

/-- Witness for C3: a one-command plan whose subprocess fails; the
executor still returns a single execution. -/
theorem C3_witness : ∃ execs calls,
    execute_git_plan procBoom "/repo" [⟨"git show deadbeef", "inspect"⟩] = (.ok execs, calls) ∧
      execs.length = [(⟨"git show deadbeef", "inspect"⟩ : PlannedCommand)].length ∧
      List.Forall₂ (fun (item : PlannedCommand) (ex : CommandExecution) =>
        ex.command = item.command ∧ ex.reason = item.reason ∧ ex.output ≠ "" ∧
        ∃ parts, shlex_split item.command = .ok parts ∧
          (∀ out, (run_git procBoom (parts.drop 1) "/repo").1 = .ok out →
             ex.success = true ∧ ex.output = truncate_output out) ∧
          (∀ msg, (run_git procBoom (parts.drop 1) "/repo").1 = .error msg →
             ex.success = false ∧ ex.output = truncate_output msg))
        [⟨"git show deadbeef", "inspect"⟩] execs :=
  C3_executor_one_result_per_command procBoom "/repo"
    [⟨"git show deadbeef", "inspect"⟩] (by decide)

/-- Counterexample to C3 as stated: the claim quantifies over every plan,
but a plan whose stored command has an unbalanced quote makes
`execute_git_plan` re-raise the `shlex` `ValueError`, so no execution
list is returned at all (not even a singleton for this one-command
plan). -/
theorem C3_counterexample :
    execute_git_plan procOk0 "/repo" [⟨"git log \"unclosed", "r"⟩] =
      (.error (.valueError "No closing quotation"), []) := by
  decide

/-- Claim C7 (amended): whitespace-only input maps to the placeholder;
input whose stripped form fits the budget passes through (stripped)
verbatim; input whose stripped form exceeds the budget is cut to
budget − 20 characters, right-trimmed and suffixed with the marker, and
then ends with the marker; and every result — in particular that of a
5000-character input — has length at most the budget.  (The original
claim's assertion that every 5000-character input yields a
marker-suffixed result fails when the stripped form fits the budget.) -/
theorem C7_truncation_rule (s : String) :
    (pyStrip s = "" → truncate_output s = "<no output>") ∧
    (pyStrip s ≠ "" → (pyStrip s).length ≤ MAX_OUTPUT_CHARS →
       truncate_output s = pyStrip s) ∧
    (MAX_OUTPUT_CHARS < (pyStrip s).length →
       truncate_output s =
         pyRStrip ⟨(pyStrip s).data.take (MAX_OUTPUT_CHARS - 20)⟩ ++ truncation_marker ∧
       ends_with_marker (truncate_output s)) ∧
    (truncate_output s).length ≤ MAX_OUTPUT_CHARS := by
  refine ⟨?_, ?_, ?_, ?_⟩
  · intro h
    simp [truncate_output, h]
  · intro h hl
    simp [truncate_output, h, hl]
  · intro hl
    have h : ¬ pyStrip s = "" := by
      intro he
      rw [he] at hl
      exact absurd hl (by decide)
    have hl2 : ¬ (pyStrip s).length ≤ MAX_OUTPUT_CHARS := by omega
    have heq : truncate_output s =
        pyRStrip ⟨(pyStrip s).data.take (MAX_OUTPUT_CHARS - 20)⟩ ++ truncation_marker := by
      simp [truncate_output, h, hl2, truncation_marker]
    refine ⟨heq, ?_⟩
    rw [heq]
    unfold ends_with_marker
    rw [String.data_append]
    exact List.suffix_append _ _
  · by_cases h : pyStrip s = ""
    · have ht : truncate_output s = "<no output>" := by simp [truncate_output, h]
      rw [ht]
      decide
    · by_cases hl : (pyStrip s).length ≤ MAX_OUTPUT_CHARS
      · have ht : truncate_output s = pyStrip s := by simp [truncate_output, h, hl]
        rw [ht]
        exact hl
      · have ht : truncate_output s =
            pyRStrip ⟨(pyStrip s).data.take (MAX_OUTPUT_CHARS - 20)⟩ ++ "\n...[truncated]" := by
          simp [truncate_output, h, hl]
        rw [ht, String.length_append]
        have h1 : (pyRStrip ⟨(pyStrip s).data.take (MAX_OUTPUT_CHARS - 20)⟩).length
            ≤ MAX_OUTPUT_CHARS - 20 := by
          refine le_trans (pyRStrip_length_le _) ?_
          rw [length_mk]
          exact List.length_take_le _ _
        have h2 : ("\n...[truncated]" : String).length = 15 := rfl
        have hM : MAX_OUTPUT_CHARS = 4000 := rfl
        omega

/-- Witness for C7: a whitespace-only input becomes the placeholder; a
short input passes through stripped. -/
theorem C7_witness :
    truncate_output "   " = "<no output>" ∧
    truncate_output " abc " = pyStrip " abc " ∧ pyStrip " abc " = "abc" :=
  ⟨(C7_truncation_rule "   ").1 (by decide),
   (C7_truncation_rule " abc ").2.1 (by decide) (by decide), by decide⟩

/-- Counterexample to C7 as stated: a 5000-character whitespace-only
input maps to the placeholder, which does not end with the truncation
marker. -/
theorem C7_counterexample :
    (String.mk (List.replicate 5000 ' ')).length = 5000 ∧
    truncate_output (String.mk (List.replicate 5000 ' ')) = "<no output>" ∧
    ¬ ends_with_marker (truncate_output (String.mk (List.replicate 5000 ' '))) := by
  have hdrop : ∀ n, (List.replicate n ' ').dropWhile pyIsSpace = [] := by
    intro n
    induction n with
    | zero => rfl
    | succ k ih => simp [List.replicate_succ, List.dropWhile_cons, pyIsSpace, ih]
  have hstrip : pyStrip (String.mk (List.replicate 5000 ' ')) = "" := by
    unfold pyStrip pyStripChars
    rw [data_mk, hdrop]
    rfl
  have ht : truncate_output (String.mk (List.replicate 5000 ' ')) = "<no output>" := by
    unfold truncate_output
    dsimp only
    rw [hstrip]
    rfl
  refine ⟨?_, ht, ?_⟩
  · rw [length_mk, List.length_replicate]
  · rw [ht]
    decide

/-- Claim C8 (amended): for input at most the budget, truncation is
idempotent, and it equals `strip` provided the input is not
whitespace-only (a whitespace-only input maps to the placeholder, not to
its empty strip). -/
theorem C8_truncate_idempotent (x : String) (h : x.length ≤ MAX_OUTPUT_CHARS) :
    truncate_output (truncate_output x) = truncate_output x ∧
    (pyStrip x ≠ "" → truncate_output x = pyStrip x) := by
  have hle : (pyStrip x).length ≤ MAX_OUTPUT_CHARS := le_trans (pyStrip_length_le x) h
  by_cases he : pyStrip x = ""
  · have ht : truncate_output x = "<no output>" := by simp [truncate_output, he]
    rw [ht]
    exact ⟨by decide, fun hne => absurd he hne⟩
  · have ht : truncate_output x = pyStrip x := by simp [truncate_output, he, hle]
    refine ⟨?_, fun _ => ht⟩
    rw [ht]
    simp [truncate_output, pyStrip_idem, he, hle]

/-- Witness for C8: a short input with surrounding whitespace. -/
theorem C8_witness :
    truncate_output (truncate_output " hi ") = truncate_output " hi " ∧
    truncate_output " hi " = pyStrip " hi " :=
  ⟨(C8_truncate_idempotent " hi " (by decide)).1,
   (C8_truncate_idempotent " hi " (by decide)).2 (by decide)⟩

/-- Counterexample to C8 as stated: the empty string has length at most
the budget, but `truncate("")` is the placeholder `"<no output>"`, not
`"".strip() = ""`. -/
theorem C8_counterexample :
    ("" : String).length ≤ MAX_OUTPUT_CHARS ∧
    truncate_output "" = "<no output>" ∧ pyStrip "" = "" ∧
    truncate_output "" ≠ pyStrip "" := by
  decide

theorem asStr_eq_some {o : Option JValue} {s : String} :
    asStr o = some s ↔ o = some (.str s) := by
  cases o with
  | none => simp [asStr]
  | some v => cases v <;> simp [asStr]

theorem plan_entry_matches {e : JValue} {pc : PlannedCommand}
    (hpe : plan_entry e = .ok pc) : entryMatches e pc := by
  cases e with
  | obj fields =>
    unfold plan_entry at hpe
    cases hc : asStr (jGet fields "command") with
    | none => simp [hc] at hpe
    | some c =>
      cases hr : asStr (jGet fields "reason") with
      | none => simp [hc, hr] at hpe
      | some r =>
        simp only [hc, hr] at hpe
        cases hv : validate_command c with
        | error err => simp only [hv] at hpe; cases hpe
        | ok u =>
          cases u
          simp only [hv] at hpe
          cases hpe
          exact ⟨fields, c, r, rfl, asStr_eq_some.mp hc, asStr_eq_some.mp hr, rfl⟩
  | null => cases hpe
  | bool b => cases hpe
  | num n => cases hpe
  | str s => cases hpe
  | arr l => cases hpe

theorem plan_entries_forall₂ :
    ∀ es ps, plan_entries es = .ok ps → List.Forall₂ entryMatches es ps := by
  intro es
  induction es with
  | nil =>
    intro ps hp
    cases hp
    exact List.Forall₂.nil
  | cons e rest ih =>
    intro ps hp
    unfold plan_entries at hp
    cases hpe : plan_entry e with
    | error err =>
      rw [hpe] at hp
      cases hp
    | ok pc =>
      rw [hpe] at hp
      cases hpr : plan_entries rest with
      | error err =>
        rw [hpr] at hp
        cases hp
      | ok tail =>
        rw [hpr] at hp
        cases hp
        exact List.Forall₂.cons (plan_entry_matches hpe) (ih tail hpr)

/-- Claim C4 (amended): when the model response parses as a JSON object,
the parser fails with the `MissingCommandsList` error exactly when the
commands field is present but not list-shaped; when the field is absent,
`data.get("commands", [])` silently defaults to an empty list and the
parser returns an empty plan instead of failing. -/
theorem C4_missing_commands_field (jsonLoads : JsonLoads) (chat : ChatOracle)
    (settings : Settings) (context question : String)
    (fields : List (String × JValue))
    (h : jsonLoads (plan_candidate (chat (plan_messages settings context question)))
          = some (.obj fields)) :
    (jGet fields "commands" = none →
       plan_git_commands jsonLoads chat settings context question = .ok []) ∧
    (∀ v, jGet fields "commands" = some v → (∀ l, v ≠ .arr l) →
       plan_git_commands jsonLoads chat settings context question =
         .error (.commandPlanError "LLM response is missing a 'commands' list.")) := by
  constructor
  · intro hnone
    simp [plan_git_commands, load_plan_json, h, plan_from_data, hnone, plan_entries]
  · intro v hv hnar
    cases v with
    | arr l => exact absurd rfl (hnar l)
    | null => simp [plan_git_commands, load_plan_json, h, plan_from_data, hv]
    | bool b => simp [plan_git_commands, load_plan_json, h, plan_from_data, hv]
    | num n => simp [plan_git_commands, load_plan_json, h, plan_from_data, hv]
    | str s => simp [plan_git_commands, load_plan_json, h, plan_from_data, hv]
    | obj f2 => simp [plan_git_commands, load_plan_json, h, plan_from_data, hv]

/-- Witness for C4: a commands field that is a string, not a list, fails
with the `MissingCommandsList` message. -/
theorem C4_witness :
    plan_git_commands jsonLoadsStrCommands chatNotJson settings0 "ctx" "q" =
      .error (.commandPlanError "LLM response is missing a 'commands' list.") :=
  (C4_missing_commands_field jsonLoadsStrCommands chatNotJson settings0 "ctx" "q"
      [("commands", .str "nope")] rfl).2 (.str "nope") rfl (fun _ hl => JValue.noConfusion hl)

/-- Counterexample to C4 as stated: a model response parsing to `{}` — a
JSON object with no commands field — yields the empty plan `.ok []`, not
a `MissingCommandsList` failure. -/
theorem C4_counterexample :
    jGet [] "commands" = none ∧
    plan_git_commands jsonLoadsEmptyObj chatNotJson settings0 "ctx" "q" = .ok [] := by
  exact ⟨rfl, by decide⟩

/-- Claim C6: the parsed commands list is truncated to `MAX_COMMANDS`
before validation — the parse result only depends on the first
`MAX_COMMANDS` entries, so entries beyond the limit are silently dropped
and never validated — and a successful parse returns one
`PlannedCommand` per retained entry, in the original order. -/
theorem C6_plan_truncated_to_max (l : List JValue) :
    plan_from_data (mkCommandsData l) = plan_from_data (mkCommandsData (l.take MAX_COMMANDS)) ∧
    (∀ plan, plan_from_data (mkCommandsData l) = .ok plan →
       plan.length = min MAX_COMMANDS l.length ∧
       List.Forall₂ entryMatches (l.take MAX_COMMANDS) plan) := by
  constructor
  · simp [plan_from_data, mkCommandsData, jGet, List.take_take]
  · intro plan hp
    have hp2 : plan_entries (l.take MAX_COMMANDS) = .ok plan := by
      simpa [plan_from_data, mkCommandsData, jGet] using hp
    have hfa := plan_entries_forall₂ (l.take MAX_COMMANDS) plan hp2
    refine ⟨?_, hfa⟩
    have := hfa.length_eq
    rw [List.length_take] at this
    omega

/-- Witness for C6: six valid entries yield exactly the first four, in
order. -/
theorem C6_witness :
    plan_from_data (mkCommandsData sixEntries) =
      plan_from_data (mkCommandsData (sixEntries.take MAX_COMMANDS)) ∧
    plan_from_data (mkCommandsData sixEntries) =
      .ok [⟨"git log -n5", "one"⟩, ⟨"git status", "two"⟩,
           ⟨"git show HEAD", "three"⟩, ⟨"git diff", "four"⟩] ∧
    ([(⟨"git log -n5", "one"⟩ : PlannedCommand), ⟨"git status", "two"⟩,
      ⟨"git show HEAD", "three"⟩, ⟨"git diff", "four"⟩]).length
      = min MAX_COMMANDS sixEntries.length ∧
    List.Forall₂ entryMatches (sixEntries.take MAX_COMMANDS)
      [⟨"git log -n5", "one"⟩, ⟨"git status", "two"⟩,
       ⟨"git show HEAD", "three"⟩, ⟨"git diff", "four"⟩] := by
  have h2 : plan_from_data (mkCommandsData sixEntries) =
      .ok [⟨"git log -n5", "one"⟩, ⟨"git status", "two"⟩,
           ⟨"git show HEAD", "three"⟩, ⟨"git diff", "four"⟩] := by decide
  exact ⟨(C6_plan_truncated_to_max sixEntries).1, h2,
         ((C6_plan_truncated_to_max sixEntries).2 _ h2).1,
         ((C6_plan_truncated_to_max sixEntries).2 _ h2).2⟩

/-- Claim C9 (amended): `try_git` never propagates a `GitError`: when the
underlying `run_git` raises, it returns the sentinel `"<git error: …>"`
(prefix `"<git error: "`, then the error message, then `">"`), and on
success it returns exactly what `run_git` returns — the trimmed stdout.
(The spec writes the sentinel prefix as `"<error: "`; the code's prefix
is `"<git error: "`.) -/
theorem C9_trygit_sentinel (proc : ProcOracle) (args : List String) (repo : String) :
    (∀ msg, (run_git proc args repo).1 = .error msg →
       (try_git proc args repo).1 = "<git error: " ++ msg ++ ">") ∧
    (∀ out, (run_git proc args repo).1 = .ok out → (try_git proc args repo).1 = out) ∧
    ((proc ("git" :: args) repo).returncode = 0 →
       (try_git proc args repo).1 = pyStrip (proc ("git" :: args) repo).stdout) := by
  refine ⟨?_, ?_, ?_⟩
  · intro msg hm
    simp [try_git, hm]
  · intro out ho
    simp [try_git, ho]
  · intro h0
    have hok : (run_git proc args repo).1 = .ok (pyStrip (proc ("git" :: args) repo).stdout) := by
      simp [run_git, h0]
    simp [try_git, hok]

/-- Witness for C9: a failing subprocess with stderr `boom`. -/
theorem C9_witness :
    (try_git procBoom ["log"] "/repo").1 = "<git error: " ++ "boom" ++ ">" :=
  (C9_trygit_sentinel procBoom ["log"] "/repo").1 "boom" (by decide)

/-- Counterexample to C9 as stated: the sentinel is `"<git error: boom>"`,
which does not start with the claimed fixed prefix `"<error: "`. -/
theorem C9_counterexample :
    (try_git procBoom ["log"] "/repo").1 = "<git error: boom>" ∧
    pyStartsWith (try_git procBoom ["log"] "/repo").1 "<error: " = false := by
  decide

theorem try_git_trace (proc : ProcOracle) (args : List String) (repo : String) :
    (try_git proc args repo).2 = [⟨args, repo⟩] := rfl

theorem gather_trace (proc : ProcOracle) (settings : Settings) :
    (gather_repo_context proc settings none).2 =
      [⟨["rev-parse", "--abbrev-ref", "HEAD"], settings.repo_path⟩,
       ⟨["status", "-sb"], settings.repo_path⟩,
       ⟨["log", "-n" ++ toString settings.commit_history_limit, "--date=short",
         "--pretty=format:%h | %an | %ad | %s"], settings.repo_path⟩] ++
      (if settings.include_diff then
         [⟨["diff", "--staged"], settings.repo_path⟩, ⟨["diff"], settings.repo_path⟩]
       else []) := by
  unfold gather_repo_context
  by_cases hd : settings.include_diff <;> simp [hd, try_git_trace]

/-- Claim C5: when the plan parser fails, `run_command_agent` propagates
the failure and the runner-invocation trace is exactly that of context
gathering — no planned command is ever passed to the process runner, and
every invocation that did happen is one of the fixed read-only
inspection commands (`rev-parse`, `status`, `log`, `diff`) in the
repository directory. -/
theorem C5_parse_failure_aborts (proc : ProcOracle) (jsonLoads : JsonLoads)
    (chat : ChatOracle) (settings : Settings) (question : String) (e : PyError)
    (h : plan_git_commands jsonLoads chat settings
          (gather_repo_context proc settings none).1 question = .error e) :
    run_command_agent proc jsonLoads chat settings question =
      (.error e, (gather_repo_context proc settings none).2) ∧
    ∀ call ∈ (run_command_agent proc jsonLoads chat settings question).2,
      call.cwd = settings.repo_path ∧
      (call.args.head? = some "rev-parse" ∨ call.args.head? = some "status" ∨
       call.args.head? = some "log" ∨ call.args.head? = some "diff") := by
  have hrun : run_command_agent proc jsonLoads chat settings question =
      (.error e, (gather_repo_context proc settings none).2) := by
    unfold run_command_agent
    dsimp only
    rw [h]
  refine ⟨hrun, ?_⟩
  rw [hrun]
  intro call hc
  rw [gather_trace] at hc
  by_cases hd : settings.include_diff
  · simp [hd] at hc
    rcases hc with rfl | rfl | rfl | rfl | rfl <;> exact ⟨rfl, by simp⟩
  · simp [hd] at hc
    rcases hc with rfl | rfl | rfl <;> exact ⟨rfl, by simp⟩

/-- Witness for C5: a run whose model response is not JSON aborts with
the `InvalidJson` plan error and only the context-gathering trace. -/
theorem C5_witness :
    run_command_agent procOk0 jsonLoadsNone chatNotJson settings0 "q" =
      (.error (.commandPlanError "LLM returned invalid JSON: notjson"),
       (gather_repo_context procOk0 settings0 none).2) :=
  (C5_parse_failure_aborts procOk0 jsonLoadsNone chatNotJson settings0 "q"
      (.commandPlanError "LLM returned invalid JSON: notjson") (by decide)).1

end RepoLens
